import Mathlib

/-!
Verification of the prompt-eval-tools repository core:
the alignment/consistency engine (`alignment_stats_full.py`) and the
multi-backend analysis client (`models/base_model.py` and its subclasses).

Python values, records and the relevant functions are shallowly embedded
as executable Lean definitions; theorems below settle the specification
claims against these definitions.
-/

namespace PromptEvalTools

/-- A Python/JSON-style value as stored in a normalized record or produced
by `json.loads`: null, booleans, numbers, strings, arrays and objects.
Structural equality on this type mirrors Python `==` on such values
(order-sensitive for arrays). -/
inductive Value where
  | null : Value
  | bool (b : Bool) : Value
  | num (n : Int) : Value
  | str (s : String) : Value
  | arr (xs : List Value) : Value
  | obj (fields : List (String × Value)) : Value
deriving Repr

mutual

/-- Decidable structural equality on values (Python `==`). -/
def Value.decEq : (a b : Value) → Decidable (a = b)
  | .null, .null => isTrue rfl
  | .bool x, .bool y =>
    if h : x = y then isTrue (by rw [h])
    else isFalse (by intro hc; cases hc; exact h rfl)
  | .num x, .num y =>
    if h : x = y then isTrue (by rw [h])
    else isFalse (by intro hc; cases hc; exact h rfl)
  | .str x, .str y =>
    if h : x = y then isTrue (by rw [h])
    else isFalse (by intro hc; cases hc; exact h rfl)
  | .arr xs, .arr ys =>
    match Value.decEqList xs ys with
    | isTrue h => isTrue (by rw [h])
    | isFalse h => isFalse (by intro hc; cases hc; exact h rfl)
  | .obj xs, .obj ys =>
    match Value.decEqObj xs ys with
    | isTrue h => isTrue (by rw [h])
    | isFalse h => isFalse (by intro hc; cases hc; exact h rfl)
  | .null, .bool _ | .null, .num _ | .null, .str _ | .null, .arr _ | .null, .obj _
  | .bool _, .null | .bool _, .num _ | .bool _, .str _ | .bool _, .arr _ | .bool _, .obj _
  | .num _, .null | .num _, .bool _ | .num _, .str _ | .num _, .arr _ | .num _, .obj _
  | .str _, .null | .str _, .bool _ | .str _, .num _ | .str _, .arr _ | .str _, .obj _
  | .arr _, .null | .arr _, .bool _ | .arr _, .num _ | .arr _, .str _ | .arr _, .obj _
  | .obj _, .null | .obj _, .bool _ | .obj _, .num _ | .obj _, .str _ | .obj _, .arr _ =>
    isFalse (by intro hc; exact Value.noConfusion hc)

/-- Decidable equality on lists of values. -/
def Value.decEqList : (xs ys : List Value) → Decidable (xs = ys)
  | [], [] => isTrue rfl
  | [], _ :: _ => isFalse (by intro hc; exact List.noConfusion hc)
  | _ :: _, [] => isFalse (by intro hc; exact List.noConfusion hc)
  | x :: xs, y :: ys =>
    match Value.decEq x y with
    | isFalse h => isFalse (by intro hc; cases hc; exact h rfl)
    | isTrue h1 =>
      match Value.decEqList xs ys with
      | isTrue h2 => isTrue (by rw [h1, h2])
      | isFalse h2 => isFalse (by intro hc; cases hc; exact h2 rfl)

/-- Decidable equality on string-keyed association lists of values. -/
def Value.decEqObj : (xs ys : List (String × Value)) → Decidable (xs = ys)
  | [], [] => isTrue rfl
  | [], _ :: _ => isFalse (by intro hc; exact List.noConfusion hc)
  | _ :: _, [] => isFalse (by intro hc; exact List.noConfusion hc)
  | (k, v) :: xs, (l, w) :: ys =>
    if hk : k = l then
      match Value.decEq v w with
      | isFalse h => isFalse (by intro hc; cases hc; exact h rfl)
      | isTrue hv =>
        match Value.decEqObj xs ys with
        | isTrue ht => isTrue (by rw [hk, hv, ht])
        | isFalse ht => isFalse (by intro hc; cases hc; exact ht rfl)
    else isFalse (by intro hc; cases hc; exact hk rfl)

end

instance : DecidableEq Value := Value.decEq

/-- A normalized record: a Python dict from field name to value
(association list with the dict's unique keys). -/
def Record : Type := List (String × Value)

instance : DecidableEq Record := by
  unfold Record
  infer_instance

/-- Python `dict.__getitem__`-style search: the value stored under key `k`,
if the key is present. -/
def getField (r : Record) (k : String) : Option Value :=
  match r with
  | [] => none
  | (k', v) :: rest => if k' = k then some v else getField rest k

/-- Python `record.get(k)`: the stored value, or `None` when the key is
absent. An absent key and a stored null are indistinguishable here,
exactly as for `dict.get`. -/
def pyGet (r : Record) (k : String) : Value :=
  (getField r k).getD Value.null

/-- Python `record.get(k, d)`: the stored value, or the default `d` when
the key is absent. -/
def pyGetD (r : Record) (k : String) (d : Value) : Value :=
  (getField r k).getD d

/-- The function `alignment_check` from `alignment_stats_full.py`: field-level agreement
between the human-expert record and the AI-evaluator record. -/
def alignment_check (field_name : String) (human_eval ai_eval : Record) : Bool :=
  let human_value := pyGet human_eval field_name
  let ai_value := pyGet ai_eval field_name
  if human_value = Value.null ∧ ai_value = Value.null then true
  else if human_value = Value.null ∨ ai_value = Value.null then false
  else decide (human_value = ai_value)

/-- Spec-side notion: a field is "null or absent" in a record when the key
is missing entirely or the stored value is null. -/
def nullOrAbsent (r : Record) (k : String) : Prop :=
  getField r k = none ∨ getField r k = some Value.null

instance (r : Record) (k : String) : Decidable (nullOrAbsent r k) := by
  unfold nullOrAbsent
  infer_instance

/-- One entry of `dialog_data`: the per-dialogue pair of records,
`{"human": {}, "ai": {}}` initially (`{}` modelled as the empty record). -/
structure Group where
  human : Record
  ai : Record
deriving DecidableEq

/-- The fresh `{"human": {}, "ai": {}}` group. -/
def emptyGroup : Group := ⟨[], []⟩

/-- Python truthiness test `not d` for a dict `d`: true iff it is empty. -/
def isEmptyRec (r : Record) : Bool :=
  match r with
  | [] => true
  | _ :: _ => false

/-- The role assignment of the grouping loop: store the record as the
dialogue's human record when its submitter equals the human-expert name,
else as the AI record when it equals the AI-evaluator name, else ignore. -/
def setRole (human_expert_name ai_evaluator_name : String) (record : Record)
    (g : Group) : Group :=
  if pyGet record "提交人" = Value.str human_expert_name then { g with human := record }
  else if pyGet record "提交人" = Value.str ai_evaluator_name then { g with ai := record }
  else g

/-- Insert-or-update of the insertion-ordered `dialog_data` dict: create the
key with a fresh group when absent (appending at the end, as a Python dict
does), then apply the role assignment to the key's group. -/
def groupInsert (hn an : String) (gs : List (Value × Group)) (id : Value)
    (r : Record) : List (Value × Group) :=
  match gs with
  | [] => [(id, setRole hn an r emptyGroup)]
  | (k, g) :: rest =>
    if k = id then (k, setRole hn an r g) :: rest
    else (k, g) :: groupInsert hn an rest id r

/-- One iteration of the grouping loop: records whose `编号` is null (or
absent) are skipped; all others are routed to their dialogue's group. -/
def groupStep (hn an : String) (gs : List (Value × Group)) (r : Record) :
    List (Value × Group) :=
  let dialog_id := pyGet r "编号"
  if dialog_id = Value.null then gs
  else groupInsert hn an gs dialog_id r

/-- The grouping phase of `calculate_alignment_stats_full`: build
`dialog_data` from the input records in order. -/
def groupRecords (records : List Record) (hn an : String) : List (Value × Group) :=
  records.foldl (groupStep hn an) []

/-- Floor of a rational (`q.num / q.den` in integer division). -/
def ratFloor (q : ℚ) : ℤ := q.num / (q.den : ℤ)

/-- Python `round()` on an exact rational: round half to even. -/
def roundHalfToEven (q : ℚ) : ℤ :=
  let fl := ratFloor q
  let frac := q - (fl : ℚ)
  if frac < 1/2 then fl
  else if 1/2 < frac then fl + 1
  else if fl % 2 = 0 then fl else fl + 1

/-- Python `round(q, 2)`: round to two decimal places. -/
def round2 (q : ℚ) : ℚ := ((roundHalfToEven (q * 100) : ℤ) : ℚ) / 100

/-- The mutable state of the statistics loop of
`calculate_alignment_stats_full`. `field_matches` is the counter dict,
modelled as a function (all counters start at 0). -/
structure StatsAcc where
  total_comparisons : Nat
  total_matches : Nat
  dialog_matches : List (Value × ℚ)
  field_matches : String → Nat
  mismatches : List (Value × String × Value × Value)

/-- Initial statistics state. -/
def initStats : StatsAcc :=
  { total_comparisons := 0
    total_matches := 0
    dialog_matches := []
    field_matches := fun _ => 0
    mismatches := [] }

/-- The body of the inner `for field in COMPARISON_FIELDS` loop, threading
the statistics state together with the per-dialogue match and comparison
counters. -/
def fieldStep (dialog_id : Value) (g : Group) (acc : StatsAcc × Nat × Nat)
    (field : String) : StatsAcc × Nat × Nat :=
  let s := acc.1
  let dcount := acc.2.1
  let dcomp := acc.2.2
  if alignment_check field g.human g.ai then
    ({ s with
        total_matches := s.total_matches + 1
        field_matches := fun f => if f = field then s.field_matches f + 1 else s.field_matches f
        total_comparisons := s.total_comparisons + 1 },
      dcount + 1, dcomp + 1)
  else
    ({ s with
        mismatches := s.mismatches ++
          [(dialog_id, field, pyGetD g.human field (Value.str "N/A"),
            pyGetD g.ai field (Value.str "N/A"))]
        total_comparisons := s.total_comparisons + 1 },
      dcount, dcomp + 1)

/-- Process one qualifying dialogue: run the field loop, then record the
dialogue's match rate (the raw count when there were no comparisons, as in
the source, where the entry keeps its integer value in that case). -/
def processDialog (fields : List String) (s : StatsAcc) (dialog_id : Value)
    (g : Group) : StatsAcc :=
  let r := fields.foldl (fieldStep dialog_id g) (s, 0, 0)
  let s' := r.1
  let dcount := r.2.1
  let dcomp := r.2.2
  { s' with dialog_matches := s'.dialog_matches ++
      [(dialog_id, if 0 < dcomp then round2 ((dcount : ℚ) / (dcomp : ℚ) * 100)
        else (dcount : ℚ))] }

/-- The body of the outer `for dialog_id, data in dialog_data.items()` loop:
a dialogue lacking either role is skipped. -/
def statsStep (fields : List String) (s : StatsAcc) (kg : Value × Group) : StatsAcc :=
  if isEmptyRec kg.2.human || isEmptyRec kg.2.ai then s
  else processDialog fields s kg.1 kg.2

/-- The statistics loop of `calculate_alignment_stats_full` over the
grouped dialogues. -/
def calcFromGroups (fields : List String) (gs : List (Value × Group)) : StatsAcc :=
  gs.foldl (statsStep fields) initStats

/-- The result tuple of `calculate_alignment_stats_full`. -/
structure MatchReport where
  overall_match_rate : ℚ
  dialog_matches : List (Value × ℚ)
  field_match_rates : List (String × ℚ)
  mismatches : List (Value × String × Value × Value)
  dialog_data : List (Value × Group)

/-- The function `calculate_alignment_stats_full`, parameterized by the comparison-field
list (the source fixes it to `COMPARISON_FIELDS`). -/
def calcCore (fields : List String) (records : List Record) (hn an : String) :
    MatchReport :=
  let dialog_data := groupRecords records hn an
  let s := calcFromGroups fields dialog_data
  { overall_match_rate :=
      if 0 < s.total_comparisons then
        round2 ((s.total_matches : ℚ) / (s.total_comparisons : ℚ) * 100)
      else 0
    dialog_matches := s.dialog_matches
    field_match_rates := fields.map (fun f =>
      (f, if 0 < dialog_data.length then
            round2 ((s.field_matches f : ℚ) / (dialog_data.length : ℚ) * 100)
          else 0))
    mismatches := s.mismatches
    dialog_data := dialog_data }

/-- The comparison-field list from `alignment_stats_full.py`. -/
def COMPARISON_FIELDS : List String := [
  "第5轮是否存在共情？",
  "第5轮回复共情程度是？",
  "第5轮共情对象是？",
  "第5轮共情是否匹配",
  "第5轮共情不匹配原因",
  "第5轮共情程度是否准确？",
  "第5轮共情程度不准确原因",
  "第5轮共情对象是否准确？",
  "第5轮共情对象错误原因",
  "第10轮是否存在共情？",
  "第10轮共情程度是？",
  "第10轮共情程度是否准确？",
  "第10轮共情程度不准确原因",
  "第10轮共情对象是？",
  "第10轮教练共情对象是否准确？",
  "第10轮共情对象错误原因",
  "第10轮共情是否匹配",
  "第10轮共情不匹配原因",
  "第5轮积极关注是否使用",
  "第5轮积极关注的对象是？",
  "第5轮积极关注对象是否准确？",
  "第5轮积极关注对象错误原因",
  "第10轮积极关注是否使用",
  "第10轮中积极关注的对象是？",
  "第10轮积极关注对象是否准确？",
  "第10轮积极关注对象错误原因"]

/-- The function `calculate_alignment_stats_full` from `alignment_stats_full.py`. -/
def calculate_alignment_stats_full (records : List Record)
    (human_expert_name ai_evaluator_name : String) : MatchReport :=
  calcCore COMPARISON_FIELDS records human_expert_name ai_evaluator_name

/-- Lookup in an insertion-ordered association list (Python dict access). -/
def lookupKey {α β : Type} [DecidableEq α] (k : α) : List (α × β) → Option β
  | [] => none
  | (k', v) :: rest => if k' = k then some v else lookupKey k rest

/-- A dialogue group qualifies for the statistics iff both roles are filled. -/
def qualifiesB (kg : Value × Group) : Bool :=
  !(isEmptyRec kg.2.human || isEmptyRec kg.2.ai)

/-- Exchange of the two roles of a dialogue group. -/
def swapGroup (g : Group) : Group := ⟨g.ai, g.human⟩

/-- The keys of `dialog_data`. -/
def keysOf (gs : List (Value × Group)) : List Value := gs.map Prod.fst

/-- Input records refuting C1 as stated: dialogue "1" has both roles (and
matches on every comparison field, all being absent on both sides), while
dialogue "2" has only the human-expert record. -/
def cexRecords : List Record :=
  [[("编号", Value.str "1"), ("提交人", Value.str "H")],
   [("编号", Value.str "1"), ("提交人", Value.str "A")],
   [("编号", Value.str "2"), ("提交人", Value.str "H")]]

/-- The record targets the dialogue `id` (its `编号` equals `id`). -/
def idMatches (id : Value) (r : Record) : Bool :=
  decide (pyGet r "编号" = id)

/-- The record is routed to the human slot by the grouping loop. -/
def takesHumanRole (hn : String) (r : Record) : Bool :=
  decide (pyGet r "提交人" = Value.str hn)

/-- The record is routed to the AI slot by the grouping loop (the `elif`
branch: not the human name, and equal to the AI-evaluator name). -/
def takesAiRole (hn an : String) (r : Record) : Bool :=
  !decide (pyGet r "提交人" = Value.str hn) &&
    decide (pyGet r "提交人" = Value.str an)

/-- Records with two human-role submissions for dialogue "1": the second
one must win. -/
def c10recs : List Record :=
  [[("编号", Value.str "1"), ("提交人", Value.str "H"), ("q", Value.str "old")],
   [("编号", Value.str "1"), ("提交人", Value.str "H"), ("q", Value.str "new")],
   [("编号", Value.str "1"), ("提交人", Value.str "A"), ("q", Value.str "ai")]]

/-- The group the program builds for dialogue "1" of `c10recs`. -/
def c10grp : Group :=
  ⟨[("编号", Value.str "1"), ("提交人", Value.str "H"), ("q", Value.str "new")],
   [("编号", Value.str "1"), ("提交人", Value.str "A"), ("q", Value.str "ai")]⟩

/-- The group the program builds for dialogue "2" of `cexRecords` (human
record only — it lacks the AI role). -/
def c6grp : Group := ⟨[("编号", Value.str "2"), ("提交人", Value.str "H")], []⟩

/-! ## The multi-backend analysis client (`models/base_model.py`) -/

/-- Boolean prefix test on character lists (the semantics of matching a
literal pattern at the head of the remaining text). -/
def isPrefixList : List Char → List Char → Bool
  | [], _ => true
  | _ :: _, [] => false
  | a :: as, b :: bs => a == b && isPrefixList as bs

/-- The text after the first (leftmost) occurrence of `needle`, if any —
the remainder semantics of `re.search` for a literal. -/
def findAfter (needle : List Char) : List Char → Option (List Char)
  | [] => if isPrefixList needle [] then some [] else none
  | c :: t =>
    if isPrefixList needle (c :: t) then some ((c :: t).drop needle.length)
    else findAfter needle t

/-- The text before the first (leftmost) occurrence of `needle`, if any. -/
def takeUntil (needle : List Char) : List Char → Option (List Char)
  | [] => if isPrefixList needle [] then some [] else none
  | c :: t =>
    if isPrefixList needle (c :: t) then some []
    else (takeUntil needle t).map (fun upto => c :: upto)

/-- Whether `needle` occurs anywhere in `s`. -/
def occursIn (needle s : List Char) : Bool := (findAfter needle s).isSome

/-- Python `str.isspace` on the ASCII whitespace used by `str.strip()`. -/
def pyIsSpace (c : Char) : Bool :=
  c == ' ' || c == '\t' || c == '\n' || c == '\r' || c == '\u000B' || c == '\u000C'

/-- Python `str.strip()`. -/
def stripChars (s : List Char) : List Char :=
  ((s.dropWhile pyIsSpace).reverse.dropWhile pyIsSpace).reverse

/-- Semantics of `re.search` for the pattern `open\s*([\s\S]*?)\s*close` with literal delimiters:
the (stripped) text between the first opener and the first closer after
it; the greedy/lazy whitespace handling of the source pattern followed by
`.strip()` amounts to stripping the enclosed text. -/
def extractBetween (opener closer : List Char) (s : List Char) :
    Option (List Char) :=
  (findAfter opener s).bind fun rest => (takeUntil closer rest).map stripChars

/-- Index of the first occurrence of a character (`str.find`). -/
def idxOfChar (c : Char) : List Char → Option Nat
  | [] => none
  | x :: t => if x = c then some 0 else (idxOfChar c t).map (fun i => i + 1)

/-- The third extraction strategy: slice from the first `[` to the last
`]` inclusively when both exist in that order, else keep the text. -/
def sliceArrayLike (t : List Char) : List Char :=
  match idxOfChar '[' t, (idxOfChar ']' t.reverse).map (fun j => t.length - 1 - j) with
  | some i, some j => if i < j then (t.take (j + 1)).drop i else t
  | some _, none => t
  | none, _ => t

/-- The `<schema>` opener of the first extraction strategy. -/
def schemaOpen : List Char := "<schema>".data

/-- The `</schema>` closer of the first extraction strategy. -/
def schemaClose : List Char := "</schema>".data

/-- The fenced-block opener of the second extraction strategy. -/
def fenceOpen : List Char := "```json".data

/-- The fenced-block closer of the second extraction strategy. -/
def fenceClose : List Char := "```".data

/-- The method `BaseDialogueAnalyzer._extract_json_from_response`: the ordered
fallback chain (structural tags, then fenced json block, then
first-`[`-to-last-`]` slicing of the stripped text). -/
def extract_json_from_response (response_text : List Char) : List Char :=
  match extractBetween schemaOpen schemaClose response_text with
  | some json_string => json_string
  | none =>
    match extractBetween fenceOpen fenceClose response_text with
    | some json_string => json_string
    | none => sliceArrayLike (stripChars response_text)

/-- Observable side effects of response processing. -/
inductive Event where
  | archive (text : String)
  | extractJson
  | parseJson
deriving DecidableEq

/-- Outcome of the file write inside `_save_raw_output`; `writeOk = false`
models the write raising (e.g. disk full). -/
def fileWrite (writeOk : Bool) : Except String Unit :=
  if writeOk then Except.ok () else Except.error "disk full"

/-- The method `BaseDialogueAnalyzer._save_raw_output`: attempt the file write inside
`try/except`; an exception is caught and logged, never propagated, so the
function returns normally either way, having performed one archive
attempt. -/
def save_raw_output (writeOk : Bool) (response_text : String) : List Event :=
  match fileWrite writeOk with
  | Except.ok _ => [Event.archive response_text]
  | Except.error _ => [Event.archive response_text]

/-- The error record returned when the parsed value is not a list. -/
def errorNotArray (response_text : String) : Value :=
  Value.obj [("error", Value.str "LLM response is not a JSON array"),
             ("raw_response", Value.str response_text)]

/-- The error record returned when JSON parsing fails. -/
def errorParseFailure (msg : String) (response_text : String) : Value :=
  Value.obj [("error", Value.str ("Failed to parse JSON response: " ++ msg)),
             ("raw_response", Value.str response_text)]

/-- The method `BaseDialogueAnalyzer._process_response`, with `json.loads` supplied
as an abstract parser `parse` (the claims hold for every parser) and the
archive-write outcome `writeOk` made explicit. Returns the result list
together with the ordered trace of side effects. -/
def process_response (parse : List Char → Except String Value) (writeOk : Bool)
    (response_text : String) : List Value × List Event :=
  let ev0 := save_raw_output writeOk response_text
  let json_string := extract_json_from_response response_text.data
  let ev1 := ev0 ++ [Event.extractJson]
  match parse json_string with
  | Except.ok (Value.arr l) => (l, ev1 ++ [Event.parseJson])
  | Except.ok (Value.null) => ([errorNotArray response_text], ev1 ++ [Event.parseJson])
  | Except.ok (Value.bool _) => ([errorNotArray response_text], ev1 ++ [Event.parseJson])
  | Except.ok (Value.num _) => ([errorNotArray response_text], ev1 ++ [Event.parseJson])
  | Except.ok (Value.str _) => ([errorNotArray response_text], ev1 ++ [Event.parseJson])
  | Except.ok (Value.obj _) => ([errorNotArray response_text], ev1 ++ [Event.parseJson])
  | Except.error msg => ([errorParseFailure msg response_text], ev1 ++ [Event.parseJson])

/-- Python exception classes relevant to `analyze_dialogue`. -/
inductive PyExc where
  | proxyError
  | connectionError
  | timeout
  | other (msg : String)
deriving DecidableEq

/-- The retry predicate of the `tenacity` decorator:
`retry_if_exception_type((ProxyError, ConnectionError, Timeout))`. -/
def isTransient : PyExc → Bool
  | .proxyError => true
  | .connectionError => true
  | .timeout => true
  | .other _ => false

/-- Python `str(e)` for the modelled exceptions. -/
def excMessage : PyExc → String
  | .proxyError => "ProxyError"
  | .connectionError => "ConnectionError"
  | .timeout => "Timeout"
  | .other m => m

/-- The error record built by the generic `except Exception` handler of
`analyze_dialogue`. -/
def apiFailRecord (e : PyExc) : Value :=
  Value.obj [("error", Value.str ("API call failed: " ++ excMessage e)),
             ("raw_response", Value.str (excMessage e))]

/-- The body of `BaseDialogueAnalyzer.analyze_dialogue` for attempt `k`:
call the backend `_analyze_dialogue` (whose outcome on the `k`-th
invocation is `backend k`), process a successful response, re-raise
transient transport errors for the retry decorator, and convert any other
exception into a one-element error-record list. -/
def analyzeBody (processResp : String → List Value)
    (backend : Nat → Except PyExc String) (k : Nat) : Except PyExc (List Value) :=
  match backend k with
  | Except.ok text => Except.ok (processResp text)
  | Except.error e =>
    if isTransient e then Except.error e
    else Except.ok [apiFailRecord e]

/-- The `tenacity` retry loop with `reraise=True`: run attempt `k`; on an
exception matching the predicate, retry while retries remain, otherwise
re-raise the last exception. Returns the outcome and the number of
invocations performed. -/
def retryGo {α : Type} (pred : PyExc → Bool) (body : Nat → Except PyExc α)
    (k : Nat) : Nat → Except PyExc α × Nat
  | 0 =>
    match body k with
    | Except.ok a => (Except.ok a, k + 1)
    | Except.error e => (Except.error e, k + 1)
  | retriesLeft + 1 =>
    match body k with
    | Except.ok a => (Except.ok a, k + 1)
    | Except.error e =>
      if pred e then retryGo pred body (k + 1) retriesLeft
      else (Except.error e, k + 1)

/-- The decorated `analyze_dialogue` entry point:
`stop_after_attempt(3)` allows the first attempt plus two retries,
restricted to the transient transport errors, with `reraise=True`. -/
def analyze_dialogue (processResp : String → List Value)
    (backend : Nat → Except PyExc String) : Except PyExc (List Value) × Nat :=
  retryGo isTransient (analyzeBody processResp backend) 0 2

/-- The `{{TRANSACTION}}` placeholder token of the prompt templates. -/
def placeholder : List Char := "\x7b\x7bTRANSACTION\x7d\x7d".data

/-- Python `str.replace` for a fixed pattern: scan left to right, replace
each non-overlapping occurrence of `pat` by `rep`. -/
def replaceAll (pat rep : List Char) : List Char → List Char
  | [] => []
  | c :: t =>
    if pat ≠ [] ∧ isPrefixList pat (c :: t) = true then
      rep ++ replaceAll pat rep (t.drop (pat.length - 1))
    else c :: replaceAll pat rep t
termination_by s => s.length
decreasing_by
  · simp only [List.length_drop, List.length_cons]
    omega
  · simp only [List.length_cons]
    omega

/-- Splitting on the same left-to-right non-overlapping occurrences
(`str.split` for a literal separator). -/
def splitOnPat (pat : List Char) : List Char → List (List Char)
  | [] => [[]]
  | c :: t =>
    if pat ≠ [] ∧ isPrefixList pat (c :: t) = true then
      [] :: splitOnPat pat (t.drop (pat.length - 1))
    else
      match splitOnPat pat t with
      | [] => [[c]]
      | piece :: rest => (c :: piece) :: rest
termination_by s => s.length
decreasing_by
  · simp only [List.length_drop, List.length_cons]
    omega
  · simp only [List.length_cons]
    omega

/-- Join pieces with a separator (`sep.join`). -/
def joinWith (sep : List Char) : List (List Char) → List Char
  | [] => []
  | [x] => x
  | x :: y :: rest => x ++ sep ++ joinWith sep (y :: rest)

/-- The prompt compilation of the adapters
(`self.system_prompt.replace("{{TRANSACTION}}", user_prompt_content)`). -/
def compilePrompt (template payload : String) : String :=
  String.mk (replaceAll placeholder payload.data template.data)

/-- C4: `alignment_check` returns true when the field is null/absent on both
sides (including a key missing entirely from one or both mappings), false
when it is null/absent on exactly one side, and otherwise true iff the two
present values are equal (structural, hence order-sensitive on arrays). -/
theorem c4_alignment_check_null_semantics (f : String) (h a : Record) :
    alignment_check f h a = true ↔
      ((nullOrAbsent h f ∧ nullOrAbsent a f) ∨
        (∃ vh va, getField h f = some vh ∧ vh ≠ Value.null ∧
          getField a f = some va ∧ va ≠ Value.null ∧ vh = va)) := by
  unfold alignment_check pyGet nullOrAbsent
  rcases hv : getField h f with _ | vh <;> rcases ha : getField a f with _ | va
  · simp
  · by_cases hva : va = Value.null
    · subst hva; simp
    · simp [hva]
  · by_cases hvh : vh = Value.null
    · subst hvh; simp
    · simp [hvh]
  · by_cases hvh : vh = Value.null
    · subst hvh
      by_cases hva : va = Value.null
      · subst hva; simp
      · simp [hva]
    · by_cases hva : va = Value.null
      · subst hva; simp [hvh]
      · simp [hvh, hva]

theorem qualifiesB_eq_true {kg : Value × Group} (hq : qualifiesB kg = true) :
    (isEmptyRec kg.2.human || isEmptyRec kg.2.ai) = false := by
  simp only [qualifiesB] at hq
  cases h : (isEmptyRec kg.2.human || isEmptyRec kg.2.ai)
  · rfl
  · rw [h] at hq
    simp at hq

theorem qualifiesB_eq_false {kg : Value × Group} (hq : qualifiesB kg = false) :
    (isEmptyRec kg.2.human || isEmptyRec kg.2.ai) = true := by
  simp only [qualifiesB] at hq
  cases h : (isEmptyRec kg.2.human || isEmptyRec kg.2.ai)
  · rw [h] at hq
    simp at hq
  · rfl

theorem lookupKey_map_self {α β : Type} [DecidableEq α] (l : List α) (g : α → β)
    (f : α) (hf : f ∈ l) :
    lookupKey f (l.map (fun x => (x, g x))) = some (g f) := by
  induction l with
  | nil => cases hf
  | cons x t ih =>
    by_cases hx : x = f
    · subst hx; simp [lookupKey]
    · have hft : f ∈ t := by
        rcases List.mem_cons.mp hf with h | h
        · exact absurd h.symm hx
        · exact h
      simp [lookupKey, hx, ih hft]

theorem foldFields_field_matches (fields : List String) (did : Value) (g : Group)
    (p : StatsAcc × Nat × Nat) (f : String) :
    ((fields.foldl (fieldStep did g) p).1).field_matches f =
      p.1.field_matches f +
        (if alignment_check f g.human g.ai then fields.count f else 0) := by
  induction fields generalizing p with
  | nil => simp
  | cons fld rest ih =>
    rw [List.foldl_cons, ih]
    by_cases hfe : f = fld
    · subst hfe
      cases hc : alignment_check f g.human g.ai
      · simp [fieldStep, hc]
      · simp [fieldStep, hc, List.count_cons]
        omega
    · have hbeq : (fld == f) = false := by
        simp only [beq_eq_false_iff_ne, ne_eq]
        exact fun hx => hfe hx.symm
      cases hc : alignment_check fld g.human g.ai
      · simp [fieldStep, hc, List.count_cons, hbeq]
      · simp [fieldStep, hc, hfe, List.count_cons, hbeq]

theorem foldFields_dialog_matches (fields : List String) (did : Value) (g : Group)
    (p : StatsAcc × Nat × Nat) :
    ((fields.foldl (fieldStep did g) p).1).dialog_matches =
      p.1.dialog_matches := by
  induction fields generalizing p with
  | nil => simp
  | cons fld rest ih =>
    rw [List.foldl_cons, ih]
    cases hc : alignment_check fld g.human g.ai <;> simp [fieldStep, hc]

theorem foldFields_mismatches_mem (fields : List String) (did : Value) (g : Group)
    (p : StatsAcc × Nat × Nat) (m : Value × String × Value × Value)
    (hm : m ∈ ((fields.foldl (fieldStep did g) p).1).mismatches) :
    m ∈ p.1.mismatches ∨ m.1 = did := by
  induction fields generalizing p with
  | nil => exact Or.inl hm
  | cons fld rest ih =>
    rw [List.foldl_cons] at hm
    rcases ih _ hm with h | h
    · cases hc : alignment_check fld g.human g.ai
      · rw [fieldStep] at h
        simp only [hc, Bool.false_eq_true, if_false] at h
        rcases List.mem_append.mp h with h | h
        · exact Or.inl h
        · right
          simp only [List.mem_singleton] at h
          rw [h]
      · rw [fieldStep] at h
        simp only [hc, if_true] at h
        exact Or.inl h
    · exact Or.inr h

theorem processDialog_field_matches (fields : List String) (s : StatsAcc)
    (did : Value) (g : Group) (f : String) :
    (processDialog fields s did g).field_matches f =
      s.field_matches f +
        (if alignment_check f g.human g.ai then fields.count f else 0) := by
  rw [processDialog]
  exact foldFields_field_matches fields did g (s, 0, 0) f

theorem calcFold_skip_filter (fields : List String) (gs : List (Value × Group))
    (s0 : StatsAcc) :
    (gs.filter qualifiesB).foldl (statsStep fields) s0 =
      gs.foldl (statsStep fields) s0 := by
  induction gs generalizing s0 with
  | nil => rfl
  | cons kg rest ih =>
    cases hq : qualifiesB kg
    · rw [List.filter_cons_of_neg (by simp [hq]), List.foldl_cons, ih, statsStep,
        qualifiesB_eq_false hq, if_pos rfl]
    · rw [List.filter_cons_of_pos (by simp [hq]), List.foldl_cons, List.foldl_cons]
      exact ih _

theorem calcFoldAux_field_matches (fields : List String) (gs : List (Value × Group))
    (s0 : StatsAcc) (f : String) :
    (gs.foldl (statsStep fields) s0).field_matches f =
      s0.field_matches f +
        (gs.filter qualifiesB).countP
          (fun kg => alignment_check f kg.2.human kg.2.ai) * fields.count f := by
  induction gs generalizing s0 with
  | nil => simp
  | cons kg rest ih =>
    rw [List.foldl_cons]
    cases hq : qualifiesB kg
    · rw [List.filter_cons_of_neg (by simp [hq]), statsStep,
        qualifiesB_eq_false hq, if_pos rfl, ih]
    · rw [List.filter_cons_of_pos (by simp [hq]), statsStep,
        qualifiesB_eq_true hq]
      simp only [Bool.false_eq_true, if_false]
      rw [ih]
      rw [processDialog_field_matches]
      cases hc : alignment_check f kg.2.human kg.2.ai
      · simp [List.countP_cons, hc]
      · simp [List.countP_cons, hc, Nat.add_mul]
        omega

theorem calcFromGroups_field_matches (fields : List String)
    (gs : List (Value × Group)) (f : String) :
    (calcFromGroups fields gs).field_matches f =
      (gs.filter qualifiesB).countP
        (fun kg => alignment_check f kg.2.human kg.2.ai) * fields.count f := by
  rw [calcFromGroups, calcFoldAux_field_matches]
  simp [initStats]

theorem alignment_check_symm (f : String) (h a : Record) :
    alignment_check f h a = alignment_check f a h := by
  unfold alignment_check
  by_cases h1 : pyGet h f = Value.null <;> by_cases h2 : pyGet a f = Value.null <;>
    simp [h1, h2, eq_comm]

theorem setRole_swap (hn an : String) (hne : hn ≠ an) (r : Record) (g : Group) :
    setRole an hn r (swapGroup g) = swapGroup (setRole hn an r g) := by
  unfold setRole swapGroup
  by_cases h1 : pyGet r "提交人" = Value.str hn
  · have h2 : ¬pyGet r "提交人" = Value.str an := by
      rw [h1]
      intro hx
      injection hx with hx'
      exact hne hx'
    simp [h1, h2, hne]
  · by_cases h2 : pyGet r "提交人" = Value.str an
    · simp [h1, h2, Ne.symm hne]
    · simp [h1, h2]

theorem groupInsert_swap (hn an : String) (hne : hn ≠ an)
    (gs : List (Value × Group)) (id : Value) (r : Record) :
    groupInsert an hn (gs.map (fun kg => (kg.1, swapGroup kg.2))) id r =
      (groupInsert hn an gs id r).map (fun kg => (kg.1, swapGroup kg.2)) := by
  induction gs with
  | nil =>
    simp only [List.map_nil, groupInsert, List.map_cons]
    rw [← setRole_swap hn an hne r emptyGroup]
    rfl
  | cons kg rest ih =>
    obtain ⟨k, g⟩ := kg
    by_cases hk : k = id
    · simp [groupInsert, hk, setRole_swap hn an hne]
    · simp [groupInsert, hk, ih]

theorem groupStep_swap (hn an : String) (hne : hn ≠ an)
    (gs : List (Value × Group)) (r : Record) :
    groupStep an hn (gs.map (fun kg => (kg.1, swapGroup kg.2))) r =
      (groupStep hn an gs r).map (fun kg => (kg.1, swapGroup kg.2)) := by
  unfold groupStep
  by_cases hid : pyGet r "编号" = Value.null
  · simp [hid]
  · simp [hid, groupInsert_swap hn an hne]

theorem groupRecords_swap (records : List Record) (hn an : String) (hne : hn ≠ an) :
    groupRecords records an hn =
      (groupRecords records hn an).map (fun kg => (kg.1, swapGroup kg.2)) := by
  unfold groupRecords
  suffices h : ∀ gs : List (Value × Group),
      records.foldl (groupStep an hn) (gs.map (fun kg => (kg.1, swapGroup kg.2))) =
        (records.foldl (groupStep hn an) gs).map (fun kg => (kg.1, swapGroup kg.2)) by
    simpa using h []
  induction records with
  | nil => intro gs; simp
  | cons r rest ih =>
    intro gs
    rw [List.foldl_cons, List.foldl_cons, groupStep_swap hn an hne, ih]

/-- C9: exchanging the reference and candidate submitter names leaves every
per-field match count of the alignment engine unchanged, because the
field-level check `alignment_check` is symmetric in its two records. -/
theorem c9_role_swap_field_matches (fields : List String) (records : List Record)
    (hn an : String) (f : String) :
    (calcFromGroups fields (groupRecords records hn an)).field_matches f =
      (calcFromGroups fields (groupRecords records an hn)).field_matches f := by
  by_cases hne : hn = an
  · subst hne; rfl
  · rw [calcFromGroups_field_matches, calcFromGroups_field_matches,
      groupRecords_swap records hn an hne, List.filter_map, List.countP_map]
    have hq : (qualifiesB ∘ fun kg : Value × Group => (kg.1, swapGroup kg.2)) =
        qualifiesB := by
      funext kg
      simp [qualifiesB, swapGroup, Bool.or_comm]
    have hp : ((fun kg : Value × Group => alignment_check f kg.2.human kg.2.ai) ∘
        fun kg : Value × Group => (kg.1, swapGroup kg.2)) =
        fun kg : Value × Group => alignment_check f kg.2.human kg.2.ai := by
      funext kg
      simp only [Function.comp_apply, swapGroup]
      exact (alignment_check_symm f kg.2.human kg.2.ai).symm
    rw [hq, hp]

theorem processDialog_dialog_matches_mem (fields : List String) (s : StatsAcc)
    (did : Value) (g : Group) (p : Value × ℚ)
    (hp : p ∈ (processDialog fields s did g).dialog_matches) :
    p ∈ s.dialog_matches ∨ p.1 = did := by
  unfold processDialog at hp
  simp only at hp
  rw [foldFields_dialog_matches] at hp
  rcases List.mem_append.mp hp with h | h
  · exact Or.inl h
  · right
    simp only [List.mem_singleton] at h
    rw [h]

theorem processDialog_mismatches_mem (fields : List String) (s : StatsAcc)
    (did : Value) (g : Group) (m : Value × String × Value × Value)
    (hm : m ∈ (processDialog fields s did g).mismatches) :
    m ∈ s.mismatches ∨ m.1 = did := by
  unfold processDialog at hm
  simp only at hm
  exact foldFields_mismatches_mem fields did g (s, 0, 0) m hm

theorem calcFold_dialog_matches_mem (fields : List String)
    (gs : List (Value × Group)) (s0 : StatsAcc) (p : Value × ℚ)
    (hp : p ∈ (gs.foldl (statsStep fields) s0).dialog_matches) :
    p ∈ s0.dialog_matches ∨ ∃ kg ∈ gs, qualifiesB kg = true ∧ p.1 = kg.1 := by
  induction gs generalizing s0 with
  | nil => exact Or.inl hp
  | cons kg rest ih =>
    rw [List.foldl_cons] at hp
    rcases ih _ hp with h | ⟨kg', hkg', hq', he'⟩
    · cases hq : qualifiesB kg
      · rw [statsStep, qualifiesB_eq_false hq, if_pos rfl] at h
        exact Or.inl h
      · rw [statsStep, qualifiesB_eq_true hq] at h
        simp only [Bool.false_eq_true, if_false] at h
        rcases processDialog_dialog_matches_mem fields s0 kg.1 kg.2 p h with h | h
        · exact Or.inl h
        · exact Or.inr ⟨kg, List.mem_cons_self kg rest, hq, h⟩
    · exact Or.inr ⟨kg', List.mem_cons_of_mem kg hkg', hq', he'⟩

theorem calcFold_mismatches_mem (fields : List String)
    (gs : List (Value × Group)) (s0 : StatsAcc) (m : Value × String × Value × Value)
    (hm : m ∈ (gs.foldl (statsStep fields) s0).mismatches) :
    m ∈ s0.mismatches ∨ ∃ kg ∈ gs, qualifiesB kg = true ∧ m.1 = kg.1 := by
  induction gs generalizing s0 with
  | nil => exact Or.inl hm
  | cons kg rest ih =>
    rw [List.foldl_cons] at hm
    rcases ih _ hm with h | ⟨kg', hkg', hq', he'⟩
    · cases hq : qualifiesB kg
      · rw [statsStep, qualifiesB_eq_false hq, if_pos rfl] at h
        exact Or.inl h
      · rw [statsStep, qualifiesB_eq_true hq] at h
        simp only [Bool.false_eq_true, if_false] at h
        rcases processDialog_mismatches_mem fields s0 kg.1 kg.2 m h with h | h
        · exact Or.inl h
        · exact Or.inr ⟨kg, List.mem_cons_self kg rest, hq, h⟩
    · exact Or.inr ⟨kg', List.mem_cons_of_mem kg hkg', hq', he'⟩

theorem groupInsert_keys (hn an : String) (gs : List (Value × Group)) (id : Value)
    (r : Record) :
    keysOf (groupInsert hn an gs id r) =
      if id ∈ keysOf gs then keysOf gs else keysOf gs ++ [id] := by
  induction gs with
  | nil => simp [groupInsert, keysOf]
  | cons kg rest ih =>
    obtain ⟨k, g⟩ := kg
    by_cases hk : k = id
    · subst hk
      simp [groupInsert, keysOf]
    · have hik : ¬id = k := fun h => hk h.symm
      simp only [groupInsert, if_neg hk, keysOf, List.map_cons] at ih ⊢
      rw [ih]
      by_cases hmem : id ∈ List.map Prod.fst rest
      · simp [List.mem_cons, hmem]
      · simp [List.mem_cons, hmem, hik]

theorem groupRecords_keys_nodup (records : List Record) (hn an : String) :
    (keysOf (groupRecords records hn an)).Nodup := by
  suffices h : ∀ gs : List (Value × Group), (keysOf gs).Nodup →
      (keysOf (records.foldl (groupStep hn an) gs)).Nodup by
    exact h [] (by simp [keysOf])
  induction records with
  | nil => intro gs hgs; exact hgs
  | cons r rest ih =>
    intro gs hgs
    rw [List.foldl_cons]
    apply ih
    rw [groupStep]
    by_cases hid : pyGet r "编号" = Value.null
    · simpa [hid] using hgs
    · rw [if_neg hid, groupInsert_keys]
      by_cases hmem : pyGet r "编号" ∈ keysOf gs
      · simpa [hmem] using hgs
      · rw [if_neg hmem]
        simp [List.nodup_append, hgs, hmem]

theorem eq_of_mem_keys_nodup {gs : List (Value × Group)}
    (hnd : (keysOf gs).Nodup) {kg kg' : Value × Group}
    (h1 : kg ∈ gs) (h2 : kg' ∈ gs) (he : kg.1 = kg'.1) : kg = kg' := by
  induction gs with
  | nil => cases h1
  | cons x rest ih =>
    have hx : x.1 ∉ keysOf rest := by
      simp only [keysOf, List.map_cons, List.nodup_cons] at hnd
      exact hnd.1
    have hnd' : (keysOf rest).Nodup := by
      simp only [keysOf, List.map_cons, List.nodup_cons] at hnd
      exact hnd.2
    rcases List.mem_cons.mp h1 with h1' | h1' <;> rcases List.mem_cons.mp h2 with h2' | h2'
    · rw [h1', h2']
    · exfalso
      apply hx
      rw [h1'] at he
      rw [he]
      exact List.mem_map_of_mem Prod.fst h2'
    · exfalso
      apply hx
      rw [h2'] at he
      rw [← he]
      exact List.mem_map_of_mem Prod.fst h1'
    · exact ih hnd' h1' h2'

/-- C6: a dialogue group lacking either role contributes nothing to the
statistics loop (its totals, per-dialogue mapping, per-field counters and
mismatch ledger are those of the qualifying groups alone), and its
dialogue id appears neither among the per-dialogue rate keys nor in the
mismatch ledger of `calculate_alignment_stats_full`. -/
theorem c6_lacking_role_excluded (records : List Record) (hn an : String) :
    calcFromGroups COMPARISON_FIELDS
        ((groupRecords records hn an).filter qualifiesB) =
      calcFromGroups COMPARISON_FIELDS (groupRecords records hn an) ∧
    ∀ kg ∈ groupRecords records hn an, qualifiesB kg = false →
      (∀ p ∈ (calculate_alignment_stats_full records hn an).dialog_matches,
          p.1 ≠ kg.1) ∧
      (∀ m ∈ (calculate_alignment_stats_full records hn an).mismatches,
          m.1 ≠ kg.1) := by
  constructor
  · exact calcFold_skip_filter COMPARISON_FIELDS (groupRecords records hn an) initStats
  · intro kg hkg hq
    constructor
    · intro p hp heq
      have hp' : p ∈ (calcFromGroups COMPARISON_FIELDS
          (groupRecords records hn an)).dialog_matches := hp
      rcases calcFold_dialog_matches_mem COMPARISON_FIELDS _ _ p hp' with h | ⟨kg', hkg', hq', he'⟩
      · simp [initStats] at h
      · have : kg' = kg :=
          eq_of_mem_keys_nodup (groupRecords_keys_nodup records hn an) hkg' hkg
            (by rw [← he', heq])
        rw [this] at hq'
        rw [hq] at hq'
        cases hq'
    · intro m hm heq
      have hm' : m ∈ (calcFromGroups COMPARISON_FIELDS
          (groupRecords records hn an)).mismatches := hm
      rcases calcFold_mismatches_mem COMPARISON_FIELDS _ _ m hm' with h | ⟨kg', hkg', hq', he'⟩
      · simp [initStats] at h
      · have : kg' = kg :=
          eq_of_mem_keys_nodup (groupRecords_keys_nodup records hn an) hkg' hkg
            (by rw [← he', heq])
        rw [this] at hq'
        rw [hq] at hq'
        cases hq'

theorem comparison_fields_nodup : COMPARISON_FIELDS.Nodup := by decide

theorem fieldRate_lookup (fields : List String) (records : List Record)
    (hn an : String) (f : String) (hf : f ∈ fields) :
    lookupKey f (calcCore fields records hn an).field_match_rates =
      some (if 0 < (groupRecords records hn an).length then
        round2 (((calcFromGroups fields (groupRecords records hn an)).field_matches f : ℚ) /
          ((groupRecords records hn an).length : ℚ) * 100)
      else 0) := by
  unfold calcCore
  simp only
  exact lookupKey_map_self fields _ f hf

/-- C1 (amended): the per-field match rate reported by
`calculate_alignment_stats_full` is (number of qualifying dialogue groups in
which the field matched) divided by the number of **all** dialogue groups
with a non-null dialogue id — qualifying or not — times 100, rounded to two
decimals (0 when there are no groups). A group lacking either role
contributes 0 to the numerator but still 1 to the denominator. -/
theorem c1_field_rate_denominator (records : List Record) (hn an : String)
    (f : String) (hf : f ∈ COMPARISON_FIELDS) :
    lookupKey f (calculate_alignment_stats_full records hn an).field_match_rates =
      some (if 0 < (groupRecords records hn an).length then
        round2 ((((groupRecords records hn an).filter qualifiesB).countP
            (fun kg => alignment_check f kg.2.human kg.2.ai) : ℚ) /
          ((groupRecords records hn an).length : ℚ) * 100)
      else 0) := by
  rw [calculate_alignment_stats_full, fieldRate_lookup _ _ _ _ _ hf,
    calcFromGroups_field_matches,
    List.count_eq_one_of_mem comparison_fields_nodup hf, Nat.mul_one]

theorem c1_field_rate_denominator_witness :
    ("第5轮是否存在共情？" ∈ COMPARISON_FIELDS) ∧
    lookupKey "第5轮是否存在共情？"
        (calculate_alignment_stats_full cexRecords "H" "A").field_match_rates =
      some (if 0 < (groupRecords cexRecords "H" "A").length then
        round2 ((((groupRecords cexRecords "H" "A").filter qualifiesB).countP
            (fun kg => alignment_check "第5轮是否存在共情？" kg.2.human kg.2.ai) : ℚ) /
          ((groupRecords cexRecords "H" "A").length : ℚ) * 100)
      else 0) :=
  ⟨by decide, c1_field_rate_denominator cexRecords "H" "A" _ (by decide)⟩

/-- C1 as stated is false on `cexRecords`: there is exactly one qualifying
dialogue group and the field matches in it, so the claimed rate is
1/1 · 100 = 100, yet the program reports 50 (the denominator counts the
non-qualifying dialogue "2" as well). -/
theorem c1_counterexample :
    lookupKey "第5轮是否存在共情？"
        (calculate_alignment_stats_full cexRecords "H" "A").field_match_rates =
      some 50 ∧
    (((groupRecords cexRecords "H" "A").filter qualifiesB).countP
        (fun kg => alignment_check "第5轮是否存在共情？" kg.2.human kg.2.ai) : ℚ) /
      ((((groupRecords cexRecords "H" "A").filter qualifiesB).length : ℚ)) * 100 = 100 ∧
    (50 : ℚ) ≠ 100 := by
  refine ⟨?_, ?_, by norm_num⟩
  · have h := fieldRate_lookup COMPARISON_FIELDS cexRecords "H" "A"
      "第5轮是否存在共情？" (by decide)
    rw [calculate_alignment_stats_full, h]
    have hlen : (groupRecords cexRecords "H" "A").length = 2 := by decide
    have hfm : (calcFromGroups COMPARISON_FIELDS
        (groupRecords cexRecords "H" "A")).field_matches "第5轮是否存在共情？" = 1 := by
      decide
    rw [hlen, hfm]
    norm_num [round2, roundHalfToEven, ratFloor]
  · have hq : ((groupRecords cexRecords "H" "A").filter qualifiesB).length = 1 := by
      decide
    have hcp : ((groupRecords cexRecords "H" "A").filter qualifiesB).countP
        (fun kg => alignment_check "第5轮是否存在共情？" kg.2.human kg.2.ai) = 1 := by
      decide
    rw [hq, hcp]
    norm_num

theorem lookupKey_groupInsert_ne (hn an : String) (gs : List (Value × Group))
    (id id' : Value) (r : Record) (hne : id' ≠ id) :
    lookupKey id (groupInsert hn an gs id' r) = lookupKey id gs := by
  induction gs with
  | nil => simp [groupInsert, lookupKey, hne]
  | cons kg rest ih =>
    obtain ⟨k, g⟩ := kg
    by_cases hk : k = id'
    · subst hk
      simp [groupInsert, lookupKey, hne]
    · by_cases hki : k = id
      · simp [groupInsert, hk, lookupKey, hki, Ne.symm hne]
      · simp [groupInsert, hk, lookupKey, hki, ih]

theorem lookupKey_groupInsert_self (hn an : String) (gs : List (Value × Group))
    (id : Value) (r : Record) :
    lookupKey id (groupInsert hn an gs id r) =
      some (setRole hn an r ((lookupKey id gs).getD emptyGroup)) := by
  induction gs with
  | nil => simp [groupInsert, lookupKey]
  | cons kg rest ih =>
    obtain ⟨k, g⟩ := kg
    by_cases hk : k = id
    · subst hk
      simp [groupInsert, lookupKey]
    · simp [groupInsert, hk, lookupKey, ih]

theorem groupRecords_lookup_char (records : List Record) (hn an : String)
    (id : Value) (hid : id ≠ Value.null) :
    lookupKey id (groupRecords records hn an) =
      if records.any (idMatches id) then
        some { human := (records.reverse.find?
                  (fun r => idMatches id r && takesHumanRole hn r)).getD []
               ai := (records.reverse.find?
                  (fun r => idMatches id r && takesAiRole hn an r)).getD [] }
      else none := by
  induction records using List.reverseRecOn with
  | nil => simp [groupRecords, lookupKey]
  | append_singleton rs r ih =>
    rw [groupRecords] at ih
    rw [groupRecords, List.foldl_append, List.foldl_cons, List.foldl_nil]
    rw [List.any_append, List.reverse_append]
    simp only [List.any_cons, List.any_nil, Bool.or_false,
      List.reverse_cons, List.reverse_nil, List.nil_append, List.cons_append,
      List.singleton_append]
    rw [groupStep]
    by_cases hpid : pyGet r "编号" = Value.null
    · have hmr : idMatches id r = false := by
        simp only [idMatches, hpid, decide_eq_false_iff_not]
        exact fun h => hid h.symm
      rw [if_pos hpid, hmr, Bool.or_false,
        List.find?_cons_of_neg _ (by simp [hmr]),
        List.find?_cons_of_neg _ (by simp [hmr])]
      exact ih
    · rw [if_neg hpid]
      by_cases hvid : pyGet r "编号" = id
      · have hmr : idMatches id r = true := by simp [idMatches, hvid]
        rw [hvid, lookupKey_groupInsert_self, ih, hmr, Bool.or_true, if_pos rfl]
        by_cases hh : takesHumanRole hn r = true
        · rw [List.find?_cons_of_pos _ (by simp [hmr, hh]),
            List.find?_cons_of_neg _ (by simp [hmr, takesAiRole, takesHumanRole] at hh ⊢; simp [hh])]
          by_cases hany : rs.any (idMatches id) = true
          · rw [if_pos hany]
            simp only [Option.getD_some, Option.some.injEq]
            rw [setRole]
            simp only [takesHumanRole, decide_eq_true_eq] at hh
            rw [if_pos hh]
          · rw [if_neg hany, Option.getD_none, Option.getD_some]
            have hnone : rs.reverse.find?
                (fun r => idMatches id r && takesAiRole hn an r) = none := by
              rw [List.find?_eq_none]
              intro x hx
              have hxm : idMatches id x = false := by
                cases h2 : idMatches id x
                · rfl
                · exfalso
                  apply hany
                  exact List.any_eq_true.mpr ⟨x, List.mem_reverse.mp hx, h2⟩
              simp [hxm]
            rw [hnone, Option.getD_none]
            simp only [Option.some.injEq]
            rw [setRole]
            simp only [takesHumanRole, decide_eq_true_eq] at hh
            rw [if_pos hh]
            rfl
        · by_cases ha : takesAiRole hn an r = true
          · rw [List.find?_cons_of_neg _ (by simp [hmr, hh]),
              List.find?_cons_of_pos _ (by simp [hmr, ha])]
            have hsub : ¬pyGet r "提交人" = Value.str hn := by
              simpa [takesHumanRole] using hh
            have hsuba : pyGet r "提交人" = Value.str an := by
              simp only [takesAiRole, Bool.and_eq_true, decide_eq_true_eq,
                Bool.not_eq_true', decide_eq_false_iff_not] at ha
              exact ha.2
            by_cases hany : rs.any (idMatches id) = true
            · rw [if_pos hany]
              simp only [Option.getD_some, Option.some.injEq]
              rw [setRole, if_neg hsub, if_pos hsuba]
            · rw [if_neg hany, Option.getD_none, Option.getD_some]
              have hnone : rs.reverse.find?
                  (fun r => idMatches id r && takesHumanRole hn r) = none := by
                rw [List.find?_eq_none]
                intro x hx
                have hxm : idMatches id x = false := by
                  cases h2 : idMatches id x
                  · rfl
                  · exfalso
                    apply hany
                    exact List.any_eq_true.mpr ⟨x, List.mem_reverse.mp hx, h2⟩
                simp [hxm]
              rw [hnone, Option.getD_none]
              simp only [Option.some.injEq]
              rw [setRole, if_neg hsub, if_pos hsuba]
              rfl
          · rw [List.find?_cons_of_neg _ (by simp [hmr, hh]),
              List.find?_cons_of_neg _ (by simp [hmr, ha])]
            have hsub : ¬pyGet r "提交人" = Value.str hn := by
              simpa [takesHumanRole] using hh
            have hsuba : ¬pyGet r "提交人" = Value.str an := by
              simp only [takesAiRole, Bool.and_eq_true, Bool.not_eq_true',
                decide_eq_false_iff_not, decide_eq_true_eq] at ha
              intro hc
              exact ha ⟨hsub, hc⟩
            by_cases hany : rs.any (idMatches id) = true
            · rw [if_pos hany]
              simp only [Option.getD_some, Option.some.injEq]
              rw [setRole, if_neg hsub, if_neg hsuba]
            · rw [if_neg hany]
              simp only [Option.getD_none, Option.some.injEq]
              rw [setRole, if_neg hsub, if_neg hsuba]
              have hnone1 : rs.reverse.find?
                  (fun r => idMatches id r && takesHumanRole hn r) = none := by
                rw [List.find?_eq_none]
                intro x hx
                have hxm : idMatches id x = false := by
                  cases h2 : idMatches id x
                  · rfl
                  · exfalso
                    apply hany
                    exact List.any_eq_true.mpr ⟨x, List.mem_reverse.mp hx, h2⟩
                simp [hxm]
              have hnone2 : rs.reverse.find?
                  (fun r => idMatches id r && takesAiRole hn an r) = none := by
                rw [List.find?_eq_none]
                intro x hx
                have hxm : idMatches id x = false := by
                  cases h2 : idMatches id x
                  · rfl
                  · exfalso
                    apply hany
                    exact List.any_eq_true.mpr ⟨x, List.mem_reverse.mp hx, h2⟩
                simp [hxm]
              rw [hnone1, hnone2]
              rfl
      · have hmr : idMatches id r = false := by
          simp only [idMatches, decide_eq_false_iff_not]
          exact hvid
        have hne : pyGet r "编号" ≠ id := hvid
        rw [lookupKey_groupInsert_ne hn an _ id _ r hne, hmr, Bool.or_false,
          List.find?_cons_of_neg _ (by simp [hmr]),
          List.find?_cons_of_neg _ (by simp [hmr])]
        exact ih

theorem lookupKey_mem {α β : Type} [DecidableEq α] {k : α} {v : β}
    {l : List (α × β)} (h : lookupKey k l = some v) : (k, v) ∈ l := by
  induction l with
  | nil => cases h
  | cons kg rest ih =>
    obtain ⟨k', v'⟩ := kg
    by_cases hk : k' = k
    · subst hk
      rw [lookupKey, if_pos rfl] at h
      injection h with h'
      rw [← h']
      exact List.mem_cons_self _ _
    · rw [lookupKey, if_neg hk] at h
      exact List.mem_cons_of_mem _ (ih h)

theorem groupRecords_keys_ne_null (records : List Record) (hn an : String) :
    ∀ kg ∈ groupRecords records hn an, kg.1 ≠ Value.null := by
  suffices h : ∀ gs : List (Value × Group), (∀ kg ∈ gs, kg.1 ≠ Value.null) →
      ∀ kg ∈ records.foldl (groupStep hn an) gs, kg.1 ≠ Value.null by
    exact h [] (by simp)
  induction records with
  | nil => intro gs hgs; exact hgs
  | cons r rest ih =>
    intro gs hgs
    rw [List.foldl_cons]
    apply ih
    intro kg hkg
    rw [groupStep] at hkg
    by_cases hid : pyGet r "编号" = Value.null
    · rw [if_pos hid] at hkg
      exact hgs kg hkg
    · rw [if_neg hid] at hkg
      have hk : kg.1 ∈ keysOf (groupInsert hn an gs (pyGet r "编号") r) :=
        List.mem_map_of_mem Prod.fst hkg
      rw [groupInsert_keys] at hk
      have hofkeys : kg.1 ∈ keysOf gs → kg.1 ≠ Value.null := by
        intro hmem
        rcases List.mem_map.mp hmem with ⟨kg', hkg', he⟩
        rw [← he]
        exact hgs kg' hkg'
      by_cases hmem : pyGet r "编号" ∈ keysOf gs
      · rw [if_pos hmem] at hk
        exact hofkeys hk
      · rw [if_neg hmem] at hk
        rcases List.mem_append.mp hk with hk | hk
        · exact hofkeys hk
        · simp only [List.mem_singleton] at hk
          rw [hk]
          exact hid

/-- C10: when several input records share a dialogue id and are routed to
the same role (same submitter-name match), the group built by the grouping
phase keeps only the record occurring last in input order for that role
(`find?` over the reversed input); every earlier record for the role is
overwritten, and the statistics are a function of the groups alone. -/
theorem c10_last_record_wins (records : List Record) (hn an : String)
    (id : Value) (g : Group)
    (hlook : lookupKey id (groupRecords records hn an) = some g) :
    g.human = (records.reverse.find?
        (fun r => idMatches id r && takesHumanRole hn r)).getD [] ∧
    g.ai = (records.reverse.find?
        (fun r => idMatches id r && takesAiRole hn an r)).getD [] := by
  have hid : id ≠ Value.null :=
    groupRecords_keys_ne_null records hn an (id, g) (lookupKey_mem hlook)
  rw [groupRecords_lookup_char records hn an id hid] at hlook
  by_cases hany : records.any (idMatches id) = true
  · rw [if_pos hany] at hlook
    simp only [Option.some.injEq] at hlook
    rw [← hlook]
    exact ⟨rfl, rfl⟩
  · rw [if_neg hany] at hlook
    cases hlook

theorem c10_last_record_wins_witness :
    lookupKey (Value.str "1") (groupRecords c10recs "H" "A") = some c10grp ∧
    c10grp.human = (c10recs.reverse.find?
        (fun r => idMatches (Value.str "1") r && takesHumanRole "H" r)).getD [] ∧
    c10grp.ai = (c10recs.reverse.find?
        (fun r => idMatches (Value.str "1") r && takesAiRole "H" "A" r)).getD [] :=
  ⟨by decide, c10_last_record_wins c10recs "H" "A" (Value.str "1") c10grp (by decide)⟩

theorem c6_lacking_role_excluded_witness :
    (calcFromGroups COMPARISON_FIELDS
        ((groupRecords cexRecords "H" "A").filter qualifiesB) =
      calcFromGroups COMPARISON_FIELDS (groupRecords cexRecords "H" "A")) ∧
    ((Value.str "2", c6grp) ∈ groupRecords cexRecords "H" "A") ∧
    qualifiesB (Value.str "2", c6grp) = false ∧
    (∀ p ∈ (calculate_alignment_stats_full cexRecords "H" "A").dialog_matches,
        p.1 ≠ Value.str "2") ∧
    (∀ m ∈ (calculate_alignment_stats_full cexRecords "H" "A").mismatches,
        m.1 ≠ Value.str "2") := by
  refine ⟨(c6_lacking_role_excluded cexRecords "H" "A").1, by decide, by decide, ?_, ?_⟩
  · exact ((c6_lacking_role_excluded cexRecords "H" "A").2 (Value.str "2", c6grp)
      (by decide) (by decide)).1
  · exact ((c6_lacking_role_excluded cexRecords "H" "A").2 (Value.str "2", c6grp)
      (by decide) (by decide)).2

/-- C2: with a backend raising a transient transport error on every
invocation, the retried `analyze_dialogue` entry point invokes the backend
exactly 3 times and the last transient failure propagates; with a
non-transient exception the backend is invoked exactly once, no retry
occurs, and the generic handler returns the error-record list instead. -/
theorem c2_retry_behaviour (processResp : String → List Value)
    (backend backend2 : Nat → Except PyExc String) (es : Nat → PyExc) (e : PyExc) :
    ((∀ k, backend k = Except.error (es k)) → (∀ k, isTransient (es k) = true) →
      analyze_dialogue processResp backend = (Except.error (es 2), 3)) ∧
    (backend2 0 = Except.error e → isTransient e = false →
      analyze_dialogue processResp backend2 = (Except.ok [apiFailRecord e], 1)) := by
  constructor
  · intro hb ht
    have hbody : ∀ k, analyzeBody processResp backend k = Except.error (es k) := by
      intro k
      rw [analyzeBody, hb k]
      simp [ht k]
    have h0 : retryGo isTransient (analyzeBody processResp backend) 0 2 =
        retryGo isTransient (analyzeBody processResp backend) 1 1 := by
      conv_lhs => rw [retryGo]
      rw [hbody 0]
      simp [ht 0]
    have h1 : retryGo isTransient (analyzeBody processResp backend) 1 1 =
        retryGo isTransient (analyzeBody processResp backend) 2 0 := by
      conv_lhs => rw [retryGo]
      rw [hbody 1]
      simp [ht 1]
    have h2 : retryGo isTransient (analyzeBody processResp backend) 2 0 =
        (Except.error (es 2), 3) := by
      rw [retryGo, hbody 2]
    rw [analyze_dialogue, h0, h1, h2]
  · intro hb2 hnt
    have hbody : analyzeBody processResp backend2 0 = Except.ok [apiFailRecord e] := by
      rw [analyzeBody, hb2]
      simp [hnt]
    rw [analyze_dialogue, retryGo, hbody]

theorem c2_retry_behaviour_witness :
    analyze_dialogue (fun _ => []) (fun _ => Except.error PyExc.timeout) =
      (Except.error PyExc.timeout, 3) ∧
    analyze_dialogue (fun _ => []) (fun _ => Except.error (PyExc.other "401 unauthorized")) =
      (Except.ok [apiFailRecord (PyExc.other "401 unauthorized")], 1) :=
  ⟨(c2_retry_behaviour (fun _ => []) (fun _ => Except.error PyExc.timeout)
      (fun _ => Except.error (PyExc.other "401 unauthorized")) (fun _ => PyExc.timeout)
      (PyExc.other "401 unauthorized")).1 (fun _ => rfl) (fun _ => rfl),
   (c2_retry_behaviour (fun _ => []) (fun _ => Except.error PyExc.timeout)
      (fun _ => Except.error (PyExc.other "401 unauthorized")) (fun _ => PyExc.timeout)
      (PyExc.other "401 unauthorized")).2 rfl rfl⟩

/-- C5: response processing always returns a list, for every parser
outcome: the parsed list itself on success, the not-an-array error record
(with the original raw text) when the parse result is not a list, and the
parse-failure error record (with the original raw text) when parsing
fails. No branch raises. -/
theorem c5_process_response_shape (parse : List Char → Except String Value)
    (writeOk : Bool) (s : String) :
    (∀ l, parse (extract_json_from_response s.data) = Except.ok (Value.arr l) →
      (process_response parse writeOk s).1 = l) ∧
    (∀ v, parse (extract_json_from_response s.data) = Except.ok v →
      (∀ l, v ≠ Value.arr l) →
      (process_response parse writeOk s).1 = [errorNotArray s]) ∧
    (∀ msg, parse (extract_json_from_response s.data) = Except.error msg →
      (process_response parse writeOk s).1 = [errorParseFailure msg s]) := by
  refine ⟨?_, ?_, ?_⟩
  · intro l hp
    simp [process_response, hp]
  · intro v hp hv
    cases v with
    | arr xs => exact absurd rfl (hv xs)
    | null => simp [process_response, hp]
    | bool b => simp [process_response, hp]
    | num n => simp [process_response, hp]
    | str t => simp [process_response, hp]
    | obj o => simp [process_response, hp]
  · intro msg hp
    simp [process_response, hp]

theorem c5_process_response_shape_witness :
    (process_response (fun _ => Except.ok (Value.arr [Value.num 1])) true "[1]").1 =
      [Value.num 1] ∧
    (process_response (fun _ => Except.ok (Value.num 7)) true "7").1 =
      [errorNotArray "7"] ∧
    (process_response (fun _ => Except.error "Expecting value") false "oops").1 =
      [errorParseFailure "Expecting value" "oops"] :=
  ⟨(c5_process_response_shape (fun _ => Except.ok (Value.arr [Value.num 1])) true
      "[1]").1 [Value.num 1] rfl,
   (c5_process_response_shape (fun _ => Except.ok (Value.num 7)) true "7").2.1
      (Value.num 7) rfl (fun _ h => Value.noConfusion h),
   (c5_process_response_shape (fun _ => Except.error "Expecting value") false
      "oops").2.2 "Expecting value" rfl⟩

/-- C7: response processing archives the raw text exactly once, before
extraction and parsing (the trace is always archive–extract–parse), and
the returned list is identical whether the archive write succeeded or
raised (its failure is caught inside `_save_raw_output`). -/
theorem c7_archive_once_isolated (parse : List Char → Except String Value)
    (writeOk : Bool) (s : String) :
    (process_response parse writeOk s).2 =
      [Event.archive s, Event.extractJson, Event.parseJson] ∧
    (process_response parse true s).1 = (process_response parse false s).1 := by
  constructor
  · cases hp : parse (extract_json_from_response s.data) with
    | ok v =>
      cases v <;> cases writeOk <;>
        simp [process_response, hp, save_raw_output, fileWrite]
    | error msg =>
      cases writeOk <;> simp [process_response, hp, save_raw_output, fileWrite]
  · cases hp : parse (extract_json_from_response s.data) with
    | ok v => cases v <;> simp [process_response, hp]
    | error msg => simp [process_response, hp]

theorem isPrefixList_self_append (p r : List Char) :
    isPrefixList p (p ++ r) = true := by
  induction p with
  | nil => rfl
  | cons a as ih => simp [isPrefixList, ih]

theorem isPrefixList_take {p : List Char} :
    ∀ {s : List Char} {k : Nat}, isPrefixList p s = true → p.length ≤ k →
      isPrefixList p (s.take k) = true := by
  induction p with
  | nil => intro s k _ _; rfl
  | cons a as ih =>
    intro s k h hk
    cases s with
    | nil => simp [isPrefixList] at h
    | cons b bs =>
      cases k with
      | zero => simp at hk
      | succ k' =>
        simp only [isPrefixList, Bool.and_eq_true] at h
        simp only [List.take_succ_cons, isPrefixList, Bool.and_eq_true]
        refine ⟨h.1, ih h.2 ?_⟩
        simpa [List.length_cons] using hk

theorem occursIn_cons (n : List Char) (c : Char) (t : List Char) :
    occursIn n (c :: t) = (isPrefixList n (c :: t) || occursIn n t) := by
  rw [occursIn, findAfter]
  cases hb : isPrefixList n (c :: t) <;> simp [hb, occursIn]

theorem occursIn_of_isPrefixList {n s : List Char}
    (h : isPrefixList n s = true) : occursIn n s = true := by
  cases s with
  | nil => rw [occursIn, findAfter, if_pos h]; rfl
  | cons c t => rw [occursIn, findAfter, if_pos h]; rfl

theorem not_prefixAt_head {n : List Char} (c : Char) (u r : List Char)
    (h : occursIn n ((c :: u ++ n).dropLast) = false) :
    isPrefixList n (c :: (u ++ n ++ r)) = false := by
  cases hb : isPrefixList n (c :: (u ++ n ++ r))
  · rfl
  · exfalso
    have hk : n.length ≤ u.length + n.length := Nat.le_add_left _ _
    have h1 : isPrefixList n ((c :: (u ++ n ++ r)).take (u.length + n.length)) = true :=
      isPrefixList_take hb hk
    have h2 : (c :: (u ++ n ++ r)).take (u.length + n.length) =
        (c :: u ++ n).dropLast := by
      have hs : c :: (u ++ n ++ r) = (c :: u ++ n) ++ r := by simp
      rw [hs, List.take_append_of_le_length (by simp), List.dropLast_eq_take]
      congr 1
      simp
    rw [h2] at h1
    have h3 := occursIn_of_isPrefixList h1
    rw [h3] at h
    cases h

theorem findAfter_append (n : List Char) (hn : n ≠ []) :
    ∀ (u r : List Char), occursIn n ((u ++ n).dropLast) = false →
      findAfter n (u ++ n ++ r) = some r := by
  intro u
  induction u with
  | nil =>
    intro r _
    obtain ⟨a, as, hna⟩ := List.exists_cons_of_ne_nil hn
    simp only [List.nil_append]
    have hp : isPrefixList (a :: as) (a :: (as ++ r)) = true :=
      isPrefixList_self_append (a :: as) r
    rw [hna, show (a :: as) ++ r = a :: (as ++ r) from rfl, findAfter, if_pos hp]
    simp [List.drop_left]
  | cons c u' ih =>
    intro r h
    have hnp := not_prefixAt_head c u' r h
    have hdl : (c :: u' ++ n).dropLast = c :: (u' ++ n).dropLast := by
      apply List.dropLast_cons_of_ne_nil
      intro hx
      exact hn (List.append_eq_nil.mp hx).2
    have h2 : occursIn n ((u' ++ n).dropLast) = false := by
      rw [hdl, occursIn_cons] at h
      exact (Bool.or_eq_false_iff.mp h).2
    rw [show (c :: u') ++ n ++ r = c :: (u' ++ n ++ r) from rfl, findAfter,
      if_neg (by simpa using hnp)]
    exact ih r h2

theorem takeUntil_append (m : List Char) (hm : m ≠ []) :
    ∀ (v w : List Char), occursIn m ((v ++ m).dropLast) = false →
      takeUntil m (v ++ m ++ w) = some v := by
  intro v
  induction v with
  | nil =>
    intro w _
    obtain ⟨a, as, hma⟩ := List.exists_cons_of_ne_nil hm
    simp only [List.nil_append]
    have hp : isPrefixList (a :: as) (a :: (as ++ w)) = true :=
      isPrefixList_self_append (a :: as) w
    rw [hma, show (a :: as) ++ w = a :: (as ++ w) from rfl, takeUntil, if_pos hp]
  | cons c v' ih =>
    intro w h
    have hnp := not_prefixAt_head c v' w h
    have hdl : (c :: v' ++ m).dropLast = c :: (v' ++ m).dropLast := by
      apply List.dropLast_cons_of_ne_nil
      intro hx
      exact hm (List.append_eq_nil.mp hx).2
    have h2 : occursIn m ((v' ++ m).dropLast) = false := by
      rw [hdl, occursIn_cons] at h
      exact (Bool.or_eq_false_iff.mp h).2
    rw [show (c :: v') ++ m ++ w = c :: (v' ++ m ++ w) from rfl, takeUntil,
      if_neg (by simpa using hnp), ih w h2]
    rfl

/-- C3: extraction precedence. A text decomposing as
`u ++ "<schema>" ++ v ++ "</schema>" ++ w` (with no earlier opener in `u`
and no earlier closer inside `v`, straddling included) extracts to the
stripped structural-tag content `v`, whatever else — e.g. a fenced json
block — appears in `w`; the fenced-block strategy answers only when no
structural-tag pair exists; and the first-`[`-to-last-`]` slicing answers
only when both previous strategies fail. -/
theorem c3_extraction_precedence (u v w s : List Char) :
    (occursIn schemaOpen ((u ++ schemaOpen).dropLast) = false →
      occursIn schemaClose ((v ++ schemaClose).dropLast) = false →
      extract_json_from_response (u ++ schemaOpen ++ v ++ schemaClose ++ w) =
        stripChars v) ∧
    (extractBetween schemaOpen schemaClose s = none →
      ∀ j, extractBetween fenceOpen fenceClose s = some j →
        extract_json_from_response s = j) ∧
    (extractBetween schemaOpen schemaClose s = none →
      extractBetween fenceOpen fenceClose s = none →
      extract_json_from_response s = sliceArrayLike (stripChars s)) := by
  refine ⟨?_, ?_, ?_⟩
  · intro h1 h2
    have he : extractBetween schemaOpen schemaClose
        (u ++ schemaOpen ++ v ++ schemaClose ++ w) = some (stripChars v) := by
      have hshape : u ++ schemaOpen ++ v ++ schemaClose ++ w =
          u ++ schemaOpen ++ (v ++ schemaClose ++ w) := by
        simp [List.append_assoc]
      rw [hshape, extractBetween,
        findAfter_append schemaOpen (by decide) u (v ++ schemaClose ++ w) h1]
      simp only [Option.bind_eq_bind, Option.some_bind]
      rw [takeUntil_append schemaClose (by decide) v w h2]
      rfl
    rw [extract_json_from_response, he]
  · intro hnone j hfence
    rw [extract_json_from_response, hnone, hfence]
  · intro h1 h2
    rw [extract_json_from_response, h1, h2]

theorem c3_extraction_precedence_witness :
    extract_json_from_response
        ("pre ".data ++ schemaOpen ++ " [1, 2] ".data ++ schemaClose ++
          " mid ```json [9] ``` post".data) = "[1, 2]".data ∧
    extract_json_from_response "hello ```json [5] ``` bye".data = "[5]".data ∧
    extract_json_from_response "only text [3] here".data =
      sliceArrayLike (stripChars "only text [3] here".data) := by
  refine ⟨?_, ?_, ?_⟩
  · have h := (c3_extraction_precedence "pre ".data " [1, 2] ".data
      " mid ```json [9] ``` post".data []).1 (by decide) (by decide)
    rw [h]
    decide
  · exact (c3_extraction_precedence [] [] [] "hello ```json [5] ``` bye".data).2.1
      (by decide) "[5]".data (by decide)
  · exact (c3_extraction_precedence [] [] [] "only text [3] here".data).2.2
      (by decide) (by decide)

theorem splitOnPat_ne_nil (pat s : List Char) : splitOnPat pat s ≠ [] := by
  cases s with
  | nil => simp [splitOnPat]
  | cons c t =>
    rw [splitOnPat]
    by_cases h : pat ≠ [] ∧ isPrefixList pat (c :: t) = true
    · simp [h]
    · rw [if_neg h]
      cases hs : splitOnPat pat t <;> simp

theorem replaceAll_eq_joinWith (pat rep s : List Char) :
    replaceAll pat rep s = joinWith rep (splitOnPat pat s) := by
  have H : ∀ (n : Nat) (s : List Char), s.length ≤ n →
      replaceAll pat rep s = joinWith rep (splitOnPat pat s) := by
    intro n
    induction n with
    | zero =>
      intro s hs
      have hnil : s = [] := List.length_eq_zero.mp (Nat.le_zero.mp hs)
      subst hnil
      simp [replaceAll, splitOnPat, joinWith]
    | succ n ih =>
      intro s hs
      cases s with
      | nil => simp [replaceAll, splitOnPat, joinWith]
      | cons c t =>
        simp only [List.length_cons] at hs
        by_cases h : pat ≠ [] ∧ isPrefixList pat (c :: t) = true
        · rw [replaceAll, if_pos h, splitOnPat, if_pos h]
          have hrec := ih (t.drop (pat.length - 1)) (by
            simp only [List.length_drop]
            omega)
          rw [hrec]
          obtain ⟨piece, rest, hx⟩ := List.exists_cons_of_ne_nil
            (splitOnPat_ne_nil pat (t.drop (pat.length - 1)))
          rw [hx]
          rfl
        · rw [replaceAll, if_neg h, splitOnPat, if_neg h]
          have hrec := ih t (by omega)
          rw [hrec]
          obtain ⟨piece, rest, hx⟩ := List.exists_cons_of_ne_nil
            (splitOnPat_ne_nil pat t)
          rw [hx]
          cases rest with
          | nil => rfl
          | cons y rest' => rfl
  exact H s.length s (Nat.le_refl _)

theorem isPrefixList_decomp :
    ∀ {p s : List Char}, isPrefixList p s = true → s = p ++ s.drop p.length := by
  intro p
  induction p with
  | nil => intro s _; rfl
  | cons a as ih =>
    intro s h
    cases s with
    | nil => simp [isPrefixList] at h
    | cons b bs =>
      simp only [isPrefixList, Bool.and_eq_true, beq_iff_eq] at h
      rw [← h.1, List.length_cons, List.drop_succ_cons, List.cons_append]
      exact congrArg (fun z => a :: z) (ih h.2)

theorem joinWith_splitOnPat_self (pat s : List Char) :
    joinWith pat (splitOnPat pat s) = s := by
  have H : ∀ (n : Nat) (s : List Char), s.length ≤ n →
      joinWith pat (splitOnPat pat s) = s := by
    intro n
    induction n with
    | zero =>
      intro s hs
      have hnil : s = [] := List.length_eq_zero.mp (Nat.le_zero.mp hs)
      subst hnil
      simp [splitOnPat, joinWith]
    | succ n ih =>
      intro s hs
      cases s with
      | nil => simp [splitOnPat, joinWith]
      | cons c t =>
        simp only [List.length_cons] at hs
        by_cases h : pat ≠ [] ∧ isPrefixList pat (c :: t) = true
        · rw [splitOnPat, if_pos h]
          obtain ⟨piece, rest, hx⟩ := List.exists_cons_of_ne_nil
            (splitOnPat_ne_nil pat (t.drop (pat.length - 1)))
          rw [hx, show joinWith pat ([] :: piece :: rest) =
            pat ++ joinWith pat (piece :: rest) from rfl, ← hx,
            ih (t.drop (pat.length - 1)) (by simp only [List.length_drop]; omega)]
          have hpl : pat.length = (pat.length - 1) + 1 :=
            (Nat.succ_pred_eq_of_pos (List.length_pos.mpr h.1)).symm
          conv_rhs => rw [isPrefixList_decomp h.2, hpl, List.drop_succ_cons]
        · rw [splitOnPat, if_neg h]
          obtain ⟨piece, rest, hx⟩ := List.exists_cons_of_ne_nil
            (splitOnPat_ne_nil pat t)
          rw [hx]
          have ihh : joinWith pat (piece :: rest) = t := by
            rw [← hx]
            exact ih t (by omega)
          cases rest with
          | nil =>
            simp only [joinWith] at ihh ⊢
            rw [ihh]
          | cons y rest' =>
            show c :: (piece ++ pat ++ joinWith pat (y :: rest')) = c :: t
            rw [show (piece ++ pat ++ joinWith pat (y :: rest')) =
              joinWith pat (piece :: y :: rest') from rfl, ihh]
  exact H s.length s (Nat.le_refl _)

theorem replaceAll_of_not_occursIn (pat rep : List Char) :
    ∀ s, occursIn pat s = false → replaceAll pat rep s = s := by
  intro s
  induction s with
  | nil => intro _; simp [replaceAll]
  | cons c t ih =>
    intro h
    rw [occursIn_cons] at h
    have h1 := (Bool.or_eq_false_iff.mp h).1
    have h2 := (Bool.or_eq_false_iff.mp h).2
    rw [replaceAll, if_neg (by simp [h1]), ih h2]

/-- C8: prompt compilation replaces every left-to-right non-overlapping
occurrence of the `\x7b\x7bTRANSACTION\x7d\x7d` placeholder with the
payload (the compiled text is the placeholder-split pieces of the template
joined with the payload) and is a total function; when the template
contains no occurrence of the placeholder, the compiled prompt is the
template verbatim. -/
theorem c8_compile_prompt (template payload : String) :
    joinWith placeholder (splitOnPat placeholder template.data) = template.data ∧
    (compilePrompt template payload).data =
      joinWith payload.data (splitOnPat placeholder template.data) ∧
    (occursIn placeholder template.data = false →
      compilePrompt template payload = template) := by
  refine ⟨joinWith_splitOnPat_self placeholder template.data, ?_, ?_⟩
  · rw [compilePrompt]
    exact replaceAll_eq_joinWith placeholder payload.data template.data
  · intro h
    rw [compilePrompt, replaceAll_of_not_occursIn placeholder payload.data
      template.data h]

theorem c8_compile_prompt_witness :
    occursIn placeholder "Analyze the dialogue.".data = false ∧
    compilePrompt "Analyze the dialogue." "hello" = "Analyze the dialogue." :=
  ⟨by decide,
   (c8_compile_prompt "Analyze the dialogue." "hello").2.2 (by decide)⟩

end PromptEvalTools

